import Mathlib

/-!
Verification development for the decaf-ts `for-http` REST-mapping layer.

The definitions below are a shallow embedding of the repository's query
compiler (`HttpStatement.build` / `HttpStatement.parseCondition`), paginator
(`HttpPaginator.page` / `HttpPaginator.prepare`), request builder
(`HttpAdapter.url` / `HttpAdapter.extractIdArgs`), response parsing
(`AxiosHttpAdapter.parseResponse`, `ResponseParser.parse`,
`NestJSResponseParser.parse`) and error classification
(`HttpAdapter.parseError`).

JavaScript strings are modelled as Lean `String`; JS `string | number`
literal values as `Lit`; ordered JS object maps as association lists.
External collaborator constants (the `QueryClause`, `PreparedStatementKeys`,
`OperationKeys` enums of `@decaf-ts/core` / `@decaf-ts/db-decorators`, the
`toCamelCase` / `toPascalCase` helpers of `@decaf-ts/logging`, and the WHATWG
`URL` serializer used by `HttpAdapter.url`) are modelled from the spec's
rendered examples and the repository's own integration tests; each such
definition carries a comment saying so.
-/

namespace ForHttp

/-- A JS `string | number` literal value, as carried in `positionalArgs`. -/
inductive Lit where
  | str (s : String)
  | num (n : Int)
deriving Repr, DecidableEq

/-- The Query Descriptor produced by `HttpStatement.build` (source field names:
`method`, `args`, `params`).  A `params` value of `undefined` in the source is
modelled as the empty association list. -/
structure HttpQuery where
  method : String
  args : List Lit
  params : List (String × Lit)
deriving Repr, DecidableEq

/-! ### Character and string helpers (models of JS string primitives) -/

/-- ASCII lower-casing of a character (model of JS `toLowerCase` on the
ASCII range used by the method tokens). -/
def lowerChar (c : Char) : Char :=
  if 'A' ≤ c ∧ c ≤ 'Z' then Char.ofNat (c.toNat + 32) else c

/-- ASCII upper-casing of a character. -/
def upperChar (c : Char) : Char :=
  if 'a' ≤ c ∧ c ≤ 'z' then Char.ofNat (c.toNat - 32) else c

/-- Capitalize the first character of a word (helper for `toCamelCase`). -/
def capWord (w : String) : String :=
  match w.data with
  | [] => ""
  | c :: cs => String.mk (upperChar c :: cs)

/-- Lower-case the first character of a word (helper for `toCamelCase`). -/
def decapWord (w : String) : String :=
  match w.data with
  | [] => ""
  | c :: cs => String.mk (lowerChar c :: cs)

/-- Splits a character list on the space character, the JS
`"...".split(" ")` semantics (consecutive separators produce empty pieces). -/
def splitSpaces (l : List Char) : List (List Char) :=
  match l with
  | [] => [[]]
  | c :: rest =>
      let r := splitSpaces rest
      if c = ' ' then [] :: r
      else
        match r with
        | [] => [[c]]
        | h :: t => (c :: h) :: t

/-- Modelled from the spec: `toCamelCase` of `@decaf-ts/logging` (external
collaborator).  The spec says the assembled keyword sequence is collapsed
"into a single camelCase token"; the repository's integration tests pin the
behaviour (`"findBy name and id Select id OrderBy id asc"` renders as
`"findByNameAndIdSelectIdOrderByIdAsc"`): split on spaces, lower-case the
first character of the first word, capitalize the first character of every
following word, and concatenate. -/
def toCamelCase (s : String) : String :=
  match (splitSpaces s.data).map String.mk with
  | [] => ""
  | w :: ws => decapWord w ++ String.join (ws.map capWord)

/-- Decides whether `sub` occurs as a contiguous sublist of `l`
(model of JS `String.prototype.includes`). -/
def containsSubL (l sub : List Char) : Bool :=
  match l with
  | [] => sub.isEmpty
  | _ :: rest => sub.isPrefixOf l || containsSubL rest sub

/-- JS `s.includes(sub)`. -/
def strContains (s sub : String) : Bool :=
  containsSubL s.data sub.data

/-! ### The Condition Tree and the Statement Compiler (`src/HttpStatement.ts`) -/

/-- Comparison operators of the Condition Tree (the `Operator` enum of
`@decaf-ts/core`): EQUAL, DIFFERENT, REGEXP, BIGGER, BIGGER_EQ, SMALLER,
SMALLER_EQ, IN. -/
inductive Operator where
  | equal | different | regexp | bigger | biggerEq | smaller | smallerEq | inOp
deriving Repr, DecidableEq

/-- Group operators AND / OR (`GroupOperator` of `@decaf-ts/core`). -/
inductive GroupOperator where
  | andOp | orOp
deriving Repr, DecidableEq

/-- The lowercase rendering of a group operator (source writes
`operator.toLowerCase()` when joining the two sides). -/
def GroupOperator.lower : GroupOperator → String
  | .andOp => "and"
  | .orOp => "or"

/-- The immutable Condition Tree: comparison leaves and AND/OR groups
(`Condition` of `@decaf-ts/core`, with `attr1` / `operator` / `comparison`
fields; for a leaf `attr1` is the attribute name and `comparison` the
literal, for a group both sides are conditions). -/
inductive Condition where
  | comp (attr : String) (op : Operator) (value : Lit)
  | group (op : GroupOperator) (left right : Condition)
deriving Repr, DecidableEq

/-- The intermediate result of `HttpStatement.parseCondition`: a rendered
method fragment plus the positional arguments collected so far. -/
structure ParsedCondition where
  method : String
  args : List Lit
deriving Repr, DecidableEq

/-- Shallow embedding of `HttpStatement.parseCondition`
(src/src/HttpStatement.ts lines 58-120).  Each switch case is mirrored
verbatim; note that the `BIGGER_EQ` case of the source does **not** append
`comparison` to `result.args`, unlike every other comparison case. -/
def parseCondition : Condition → ParsedCondition
  | .comp attr .equal v => ⟨attr, [v]⟩
  | .comp attr .different v => ⟨attr ++ " diff", [v]⟩
  | .comp attr .regexp v => ⟨attr ++ " matches", [v]⟩
  | .comp attr .bigger v => ⟨attr ++ " bigger", [v]⟩
  | .comp attr .biggerEq _ => ⟨attr ++ " bigger than equal", []⟩
  | .comp attr .smaller v => ⟨attr ++ " less", [v]⟩
  | .comp attr .smallerEq v => ⟨attr ++ " less than equal", [v]⟩
  | .comp attr .inOp v => ⟨attr ++ " in", [v]⟩
  | .group op l r =>
      let c1 := parseCondition l
      let c2 := parseCondition r
      ⟨c1.method ++ " " ++ op.lower ++ " " ++ c2.method, c1.args ++ c2.args⟩

/-- The comparison leaves' literal values in left-to-right traversal order
(the reference list the spec's argument/position invariant talks about). -/
def leafValues : Condition → List Lit
  | .comp _ _ v => [v]
  | .group _ l r => leafValues l ++ leafValues r

/-- Number of comparison leaves of a Condition Tree. -/
def leafCount (c : Condition) : Nat := (leafValues c).length

/-- Modelled from the spec: `QueryClause.FIND_BY` of `@decaf-ts/core`; the
rendered tokens of the spec and the integration tests all begin `findBy`. -/
def queryClauseFindBy : String := "findBy"

/-- Modelled from the spec: `QueryClause.SELECT` of `@decaf-ts/core`
(renders as the `Select` segment of the tokens in the integration tests). -/
def queryClauseSelect : String := "Select"

/-- Modelled from the spec: `QueryClause.ORDER_BY` of `@decaf-ts/core`
(renders as the `OrderBy` segment; `HttpPaginator.prepare` splits the
camel-cased token on this exact value, which fixes its casing). -/
def queryClauseOrderBy : String := "OrderBy"

/-- Modelled from the spec: `QueryClause.GROUP_BY` of `@decaf-ts/core`. -/
def queryClauseGroupBy : String := "GroupBy"

/-- Modelled from the spec: `QueryClause.AND` of `@decaf-ts/core` (its
`toLowerCase()` is the `and` joiner used for projections). -/
def queryClauseAnd : String := "And"

/-- Modelled from the spec: `QueryClause.OR` of `@decaf-ts/core`. -/
def queryClauseOr : String := "Or"

/-- Modelled from the spec: `QueryClause.THEN_BY` of `@decaf-ts/core`. -/
def queryClauseThenBy : String := "ThenBy"

/-- The selectors a built statement carries into `HttpStatement.build`
(the `whereCondition`, `selectSelector`, `orderBySelector`,
`groupBySelector`, `limitSelector`, `offsetSelector` fields of the core
`Statement` base class). -/
structure BuildInput where
  whereCondition : Option Condition
  selectSelector : Option (List String)
  orderBySelector : Option (List String)
  groupBySelector : Option String
  limitSelector : Option Int
  offsetSelector : Option Int
deriving Repr, DecidableEq

/-- Join a list of strings with a separator (JS `Array.prototype.join`). -/
def joinSep (sep : String) : List String → String
  | [] => ""
  | [x] => x
  | x :: xs => x ++ sep ++ joinSep sep xs

/-- Shallow embedding of `HttpStatement.build` (src/src/HttpStatement.ts
lines 26-56): assembles the keyword list, collects positional args from the
condition, fills `params.limit` / `params.skip` (a JS-falsy selector value,
i.e. 0, is not set), and camel-cases the joined token. -/
def build (inp : BuildInput) : HttpQuery :=
  let methodWords :=
    [queryClauseFindBy]
    ++ (match inp.whereCondition with
        | some c => [(parseCondition c).method]
        | none => [])
    ++ (match inp.selectSelector with
        | some sel => [queryClauseSelect, joinSep (" " ++ queryClauseAnd.map lowerChar ++ " ") sel]
        | none => [])
    ++ (match inp.orderBySelector with
        | some ord => queryClauseOrderBy :: ord
        | none => [])
    ++ (match inp.groupBySelector with
        | some g => [queryClauseGroupBy, g]
        | none => [])
  let args :=
    match inp.whereCondition with
    | some c => (parseCondition c).args
    | none => []
  let params :=
    (match inp.limitSelector with
     | some l => if l = 0 then [] else [("limit", Lit.num l)]
     | none => [])
    ++ (match inp.offsetSelector with
        | some o => if o = 0 then [] else [("skip", Lit.num o)]
        | none => [])
  { method := toCamelCase (joinSep " " methodWords), args := args, params := params }

/-- A build input with only a where-condition (the shape claims C1 and C4
exercise). -/
def buildWhereOnly (c : Condition) : BuildInput :=
  ⟨some c, none, none, none, none, none⟩

/-! ### The Request Builder: `HttpAdapter.url` and `HttpAdapter.extractIdArgs` -/

/-- Concatenated map over a list (used to express per-character percent
encoders; structurally recursive so the kernel can evaluate it). -/
def concatMap2 (f : α → List β) : List α → List β
  | [] => []
  | a :: t => f a ++ concatMap2 f t

theorem concatMap2_append (f : α → List β) (a b : List α) :
    concatMap2 f (a ++ b) = concatMap2 f a ++ concatMap2 f b := by
  induction a with
  | nil => rfl
  | cons x xs ih => simp [concatMap2, ih]

/-- Uppercase hexadecimal digit for `n < 16`. -/
def hexDigit (n : Nat) : Char :=
  "0123456789ABCDEF".data.getD n '0'

/-- Percent-escapes one ASCII character as `%XY` with uppercase hex. -/
def percentEsc (c : Char) : List Char :=
  ['%', hexDigit (c.toNat / 16), hexDigit (c.toNat % 16)]

/-- Decides whether `c` is an ASCII letter or digit. -/
def isAlnum (c : Char) : Bool :=
  ('A' ≤ c ∧ c ≤ 'Z') ∨ ('a' ≤ c ∧ c ≤ 'z') ∨ ('0' ≤ c ∧ c ≤ '9')

/-- Modelled from the spec: the `application/x-www-form-urlencoded`
serializer the WHATWG `URL.searchParams` uses when `HttpAdapter.url` renders
`queryParams` (external runtime behaviour): ASCII alphanumerics and
`*`, `-`, `.`, `_` pass through, the space character becomes `+`, everything
else is percent-escaped.  This is the state of the query string inside
`url.toString()`, before the source's final `encodeURI` pass — that pass
re-escapes the `%` of every `%XY` escape produced here (as `%25XY`); only
`+` and the pass-through characters reach the returned URL unchanged. -/
def formEncChar (c : Char) : List Char :=
  if c = ' ' then ['+']
  else if isAlnum c ∨ c.toNat ∈ [42, 45, 46, 95] then [c]
  else percentEsc c

/-- Form-urlencoding of a whole string (query-string keys and values), as it
stands before the final `encodeURI` pass. -/
def formEncode (s : String) : String :=
  String.mk (concatMap2 formEncChar s.data)

/-- Modelled from the spec: the WHATWG URL path serializer applied by
`new URL(...)` inside `HttpAdapter.url` (external runtime behaviour): ASCII
alphanumerics and `!$&()*+,-./:;=@_~` and the apostrophe pass through,
the space character and the remaining ASCII characters are percent-escaped
(a space is `%20` at this stage).  This is the state of the path inside
`url.toString()`, before the source's final `encodeURI` pass — that pass
re-escapes each produced `%` as `%25`, so a path space ultimately renders
as `%2520` in the returned URL. -/
def pathEncChar (c : Char) : List Char :=
  if isAlnum c ∨
      c.toNat ∈ [33, 36, 38, 39, 40, 41, 42, 43, 44, 45, 46, 47, 58, 59, 61, 64, 95, 126] then
    [c]
  else percentEsc c

/-- Path-encoding of a whole rendered path (keeps `/` separators), as it
stands before the final `encodeURI` pass. -/
def pathEncode (s : String) : String :=
  String.mk (concatMap2 pathEncChar s.data)

/-- The WHATWG `url.toString()` value inside `HttpAdapter.url`:
`protocol://host/<table>[/seg1/seg2...][?k1=v1&k2=v2...]` with the path
percent-encoded (space as `%20`) and the query form-urlencoded (space as
`+`), query pairs in insertion order.  `table` is the already kebab-cased
resource name produced by `toTableName`; array-valued query params are
comma-joined to a string by the source before appending. -/
def urlSerialized (protocol host table : String) (pathParams : List String)
    (queryParams : List (String × String)) : String :=
  let path := table ++ (if pathParams.isEmpty then "" else "/" ++ joinSep "/" pathParams)
  let query :=
    if queryParams.isEmpty then ""
    else "?" ++ joinSep "&" (queryParams.map (fun kv => formEncode kv.1 ++ "=" ++ formEncode kv.2))
  protocol ++ "://" ++ host ++ "/" ++ pathEncode path ++ query

/-- Modelled from the spec: one character of ECMAScript `encodeURI`
(external runtime behaviour): ASCII alphanumerics, the marks
`- _ . ! ~ * ( )` and the apostrophe, the reserved set `; / ? : @ & = + $ ,`
and `#` pass through; every other character — in particular the `%` of every
escape the URL serializer already produced — is percent-escaped. -/
def encodeURIChar (c : Char) : List Char :=
  if isAlnum c ∨
      c.toNat ∈ [33, 35, 36, 38, 39, 40, 41, 42, 43, 44, 45, 46, 47, 58, 59, 61, 63, 64, 95, 126] then
    [c]
  else percentEsc c

/-- ECMAScript `encodeURI` over a whole string. -/
def encodeURIStr (s : String) : String :=
  String.mk (concatMap2 encodeURIChar s.data)

/-- Shallow embedding of `HttpAdapter.url` (adapter source lines 307-332):
the source returns `encodeURI(url.toString())`, i.e. the `encodeURI` pass
applied to the WHATWG serialization.  Because `encodeURI` re-escapes `%`,
every percent escape of the serialization is double-encoded in the result
(a path space renders `%2520`), while `+` and plain characters survive. -/
def httpAdapterUrl (protocol host table : String) (pathParams : List String)
    (queryParams : List (String × String)) : String :=
  encodeURIStr (urlSerialized protocol host table pathParams queryParams)

/-- Splits `l` on every occurrence of the separator `sep` (model of JS
`String.prototype.split` with a non-empty string separator); `fuel` bounds
the recursion and is instantiated with the input length. -/
def splitOnSubAux (sep : List Char) (fuel : Nat) (l acc : List Char) : List (List Char) :=
  match fuel with
  | 0 => [acc.reverse]
  | fuel + 1 =>
      match l with
      | [] => [acc.reverse]
      | c :: rest =>
          if sep ≠ [] ∧ sep.isPrefixOf l then
            acc.reverse :: splitOnSubAux sep fuel (l.drop sep.length) []
          else
            splitOnSubAux sep fuel rest (c :: acc)

/-- JS `s.split(sep)` for a string separator. -/
def splitOnSub (s sep : String) : List String :=
  (splitOnSubAux sep.data (s.data.length + 1) s.data []).map String.mk

/-- Shallow embedding of `HttpAdapter.extractIdArgs` (adapter source lines
349-358).  The model-metadata lookup `Model.composed(model, Model.pk(model))`
is an external collaborator; its outcome is passed in as `composedSep`:
`some sep` when the model's primary key is declared composed with separator
`sep`, `none` otherwise (and `none` as well when the model is passed as a
plain string name, since the source returns `[idStr]` before the lookup). -/
def extractIdArgs (composedSep : Option String) (id : String) : List String :=
  match composedSep with
  | none => [id]
  | some sep => splitOnSub id sep

/-- The URL built by `AxiosHttpAdapter.read` (axios adapter source lines
312-329): `this.url(tableName, this.extractIdArgs(tableName, id))`. -/
def readUrl (protocol host table : String) (composedSep : Option String) (id : String) : String :=
  httpAdapterUrl protocol host table (extractIdArgs composedSep id) []

end ForHttp

namespace ForHttp

/-- The condition `(age > 21) AND (age < 25)` of the spec's scenario. -/
def ageScenario : Condition :=
  .group .andOp (.comp "age" .bigger (.num 21)) (.comp "age" .smaller (.num 25))

/-- A single BIGGER_EQ (bigger than equal) comparison leaf `age >= 21`. -/
def ageBiggerEq : Condition := .comp "age" .biggerEq (.num 21)

end ForHttp

/-- C1: the claim states that `positionalArgs` has exactly one entry per
comparison leaf for every operator, including BIGGER_EQ.  The code violates
this: compiling the single-leaf condition `age >= 21` yields the method token
`findByAgeBiggerThanEqual` with an empty `positionalArgs` list, while the
tree has one comparison leaf with literal value 21 — the `BIGGER_EQ` switch
case of `parseCondition` is the only one that fails to push its comparison
value. -/
theorem C1_biggerEq_drops_argument :
    ForHttp.parseCondition ForHttp.ageBiggerEq =
      ⟨"age bigger than equal", []⟩ ∧
    ForHttp.build (ForHttp.buildWhereOnly ForHttp.ageBiggerEq) =
      { method := "findByAgeBiggerThanEqual", args := [], params := [] } ∧
    ForHttp.leafValues ForHttp.ageBiggerEq = [ForHttp.Lit.num 21] ∧
    (ForHttp.build (ForHttp.buildWhereOnly ForHttp.ageBiggerEq)).args.length ≠
      ForHttp.leafCount ForHttp.ageBiggerEq := by
  refine ⟨rfl, ?_, rfl, by decide⟩
  rfl

/-- C4: compiling the condition `(age > 21) AND (age < 25)` with no
projection, order or group selector yields the method token
`findByAgeBiggerAndAgeLess` and positional args `[21, 25]`, in that order. -/
theorem C4_age_scenario :
    ForHttp.build (ForHttp.buildWhereOnly ForHttp.ageScenario) =
      { method := "findByAgeBiggerAndAgeLess",
        args := [ForHttp.Lit.num 21, ForHttp.Lit.num 25],
        params := [] } := by
  rfl

namespace ForHttp

/-- The data of a `String.mk` is its underlying list. -/
@[simp] theorem data_mk (l : List Char) : (String.mk l).data = l := rfl

/-- Form-urlencoding distributes over string concatenation. -/
theorem formEncode_append (a b : String) :
    formEncode (a ++ b) = formEncode a ++ formEncode b := by
  cases a with
  | mk la =>
    cases b with
    | mk lb =>
      show String.mk (concatMap2 formEncChar (la ++ lb)) =
        String.mk (concatMap2 formEncChar la ++ concatMap2 formEncChar lb)
      rw [concatMap2_append]

/-- Path-encoding distributes over string concatenation. -/
theorem pathEncode_append (a b : String) :
    pathEncode (a ++ b) = pathEncode a ++ pathEncode b := by
  cases a with
  | mk la =>
    cases b with
    | mk lb =>
      show String.mk (concatMap2 pathEncChar (la ++ lb)) =
        String.mk (concatMap2 pathEncChar la ++ concatMap2 pathEncChar lb)
      rw [concatMap2_append]

/-- A space form-urlencodes to the plus sign. -/
theorem formEncode_space : formEncode " " = "+" := rfl

/-- A space path-encodes to the `%20` escape (the pre-`encodeURI` stage;
the final pass re-escapes the `%`, giving `%2520` in the returned URL). -/
theorem pathEncode_space : pathEncode " " = "%20" := rfl

/-- The path separator is left untouched by path-encoding. -/
theorem pathEncode_slash : pathEncode "/" = "/" := rfl

/-- The `encodeURI` pass distributes over string concatenation. -/
theorem encodeURIStr_append (a b : String) :
    encodeURIStr (a ++ b) = encodeURIStr a ++ encodeURIStr b := by
  cases a with
  | mk la =>
    cases b with
    | mk lb =>
      show String.mk (concatMap2 encodeURIChar (la ++ lb)) =
        String.mk (concatMap2 encodeURIChar la ++ concatMap2 encodeURIChar lb)
      rw [concatMap2_append]

/-- The plus sign survives the `encodeURI` pass unchanged. -/
theorem encodeURIStr_plus : encodeURIStr "+" = "+" := rfl

/-- A percent sign is re-escaped as `%25` by the `encodeURI` pass: this is
what double-encodes every escape the WHATWG serializer produced. -/
theorem encodeURIStr_percent : encodeURIStr "%" = "%25" := rfl

end ForHttp

/-- C3 counterexample: the claim says a space in a query-string value is
always rendered as `%20` and never as `+`.  Rendering the query parameter
`name = "a b"` through `HttpAdapter.url` (WHATWG `URL.searchParams`
serialization followed by `encodeURI`) yields `...?name=a+b`: the space is
encoded as `+` and `%20` occurs nowhere in the URL. -/
theorem C3_space_plus_counterexample :
    ForHttp.httpAdapterUrl "https" "example.com" "test-model" [] [("name", "a b")] =
      "https://example.com/test-model?name=a+b" ∧
    ForHttp.strContains
      (ForHttp.httpAdapterUrl "https" "example.com" "test-model" [] [("name", "a b")])
      "%20" = false ∧
    ForHttp.strContains
      (ForHttp.httpAdapterUrl "https" "example.com" "test-model" [] [("name", "a b")])
      "a+b" = true := by
  refine ⟨rfl, by decide, by decide⟩

/-- C3 amended: for every rendered Request Descriptor, a space character in
a query-string parameter value is encoded as `+` (the form-urlencoded
convention of `URL.searchParams`, which the final `encodeURI` pass leaves
intact), never `%20`: the returned URL is the `encodeURI` image of the
serialization, with the query-value space sitting in it as a literal `+`
between the encodings of the two surrounding halves. -/
theorem C3_amended (proto host table k pre post : String) :
    ForHttp.httpAdapterUrl proto host table [] [(k, pre ++ " " ++ post)] =
      ForHttp.encodeURIStr (proto ++ "://" ++ host ++ "/" ++ ForHttp.pathEncode table ++ "?" ++
        ForHttp.formEncode k ++ "=" ++ ForHttp.formEncode pre) ++ "+" ++
      ForHttp.encodeURIStr (ForHttp.formEncode post) ∧
    ForHttp.formEncode (pre ++ " " ++ post) =
      ForHttp.formEncode pre ++ "+" ++ ForHttp.formEncode post ∧
    ForHttp.encodeURIStr "+" = "+" := by
  refine ⟨?_, ?_, rfl⟩
  · apply String.ext
    simp [ForHttp.httpAdapterUrl, ForHttp.urlSerialized, ForHttp.encodeURIStr,
      ForHttp.formEncode, ForHttp.joinSep, String.data_append, ForHttp.concatMap2_append,
      ForHttp.concatMap2, ForHttp.formEncChar, ForHttp.encodeURIChar, ForHttp.isAlnum,
      List.append_assoc]
  · rw [ForHttp.formEncode_append, ForHttp.formEncode_append, ForHttp.formEncode_space]

/-- C7: for a model whose primary key is composed of two fields with
separator `_`, building a read request for the identifier `a_1` splits the
id into the two path segments `a` and `1`, in that order, and the rendered
URL ends with `/a/1`; for a model with no composite-key declaration the
identifier is appended as the single path segment `a_1`. -/
theorem C7_composite_key_segments :
    ForHttp.extractIdArgs (some "_") "a_1" = ["a", "1"] ∧
    ForHttp.readUrl "https" "example.com" "test-model" (some "_") "a_1" =
      "https://example.com/test-model/a/1" ∧
    ForHttp.extractIdArgs none "a_1" = ["a_1"] ∧
    ForHttp.readUrl "https" "example.com" "test-model" none "a_1" =
      "https://example.com/test-model/a_1" := by
  refine ⟨rfl, rfl, rfl, rfl⟩

namespace ForHttp

/-! ### Error classification: `HttpAdapter.parseError` (adapter source lines 511-539) -/

/-- The error taxonomy of the spec (classification kinds, not concrete
classes): the thirteen recognizable kinds plus the generic Internal
fallback. -/
inductive ErrKind where
  | notFound | conflict | badRequest | validation | query | paging
  | unsupported | migration | observer | authorization | forbidden
  | connection | serialization | internal
deriving Repr, DecidableEq

/-- A classified error: its kind together with the original message.  The
concrete error classes (`NotFoundError` etc. of `@decaf-ts/db-decorators` /
`@decaf-ts/core`) are external collaborators; modelled from the spec: their
constructors preserve the original message as context. -/
structure ClassifiedError where
  kind : ErrKind
  msg : String
deriving Repr, DecidableEq

/-- Shallow embedding of the static `HttpAdapter.parseError` (adapter source
lines 511-539): the nested `includes` checks in source order.  The token for
each class is the class name (`NotFoundError.name` is the string
`"NotFoundError"`, and so on); the first four checks also match on the
status-code digits `404` / `409` / `400` / `422`. -/
def parseErrorHttp (msg : String) : ClassifiedError :=
  if strContains msg "NotFoundError" || strContains msg "404" then ⟨.notFound, msg⟩
  else if strContains msg "ConflictError" || strContains msg "409" then ⟨.conflict, msg⟩
  else if strContains msg "BadRequestError" || strContains msg "400" then ⟨.badRequest, msg⟩
  else if strContains msg "ValidationError" || strContains msg "422" then ⟨.validation, msg⟩
  else if strContains msg "QueryError" then ⟨.query, msg⟩
  else if strContains msg "PagingError" then ⟨.paging, msg⟩
  else if strContains msg "UnsupportedError" then ⟨.unsupported, msg⟩
  else if strContains msg "MigrationError" then ⟨.migration, msg⟩
  else if strContains msg "ObserverError" then ⟨.observer, msg⟩
  else if strContains msg "AuthorizationError" then ⟨.authorization, msg⟩
  else if strContains msg "ForbiddenError" then ⟨.forbidden, msg⟩
  else if strContains msg "ConnectionError" then ⟨.connection, msg⟩
  else if strContains msg "SerializationError" then ⟨.serialization, msg⟩
  else ⟨.internal, msg⟩

/-- The classification table in the spec's fixed order, each kind with the
message fragments that select it (class-name token, plus the status-code
digits for the first four kinds). -/
def errorChecks : List (ErrKind × List String) :=
  [(.notFound, ["NotFoundError", "404"]),
   (.conflict, ["ConflictError", "409"]),
   (.badRequest, ["BadRequestError", "400"]),
   (.validation, ["ValidationError", "422"]),
   (.query, ["QueryError"]),
   (.paging, ["PagingError"]),
   (.unsupported, ["UnsupportedError"]),
   (.migration, ["MigrationError"]),
   (.observer, ["ObserverError"]),
   (.authorization, ["AuthorizationError"]),
   (.forbidden, ["ForbiddenError"]),
   (.connection, ["ConnectionError"]),
   (.serialization, ["SerializationError"])]

/-- Disjunction of `strContains msg` over a fragment list (JS `||` chain
shape). -/
def anyContains (msg : String) : List String → Bool
  | [] => false
  | [t] => strContains msg t
  | t :: rest => strContains msg t || anyContains msg rest

/-- First-match classification over a check table: the first entry one of
whose fragments occurs in the message wins; no match falls back to the
generic Internal kind.  This is the spec's description of the propagation
policy, stated independently of the source's nested conditionals. -/
def firstMatch (msg : String) : List (ErrKind × List String) → ErrKind
  | [] => .internal
  | (k, toks) :: rest =>
      if anyContains msg toks then k else firstMatch msg rest

/-- Classification over a check table together with the preserved message
(the chain shape of the source's nested conditionals, generic in the
table). -/
def genParse (msg : String) : List (ErrKind × List String) → ClassifiedError
  | [] => ⟨.internal, msg⟩
  | (k, toks) :: rest =>
      if anyContains msg toks then ⟨k, msg⟩ else genParse msg rest

theorem genParse_eq (msg : String) (checks : List (ErrKind × List String)) :
    genParse msg checks = ⟨firstMatch msg checks, msg⟩ := by
  induction checks with
  | nil => rfl
  | cons c rest ih =>
      obtain ⟨k, toks⟩ := c
      by_cases h : anyContains msg toks = true
      · simp [genParse, firstMatch, h]
      · simp only [genParse, firstMatch, if_neg h, ih]

/-- The thirteen taxonomy tokens as the claim lists them. -/
def taxonomyTokens : List String :=
  ["NotFound", "Conflict", "BadRequest", "Validation", "QueryError", "PagingError",
   "Unsupported", "Migration", "Observer", "Authorization", "Forbidden",
   "Connection", "Serialization"]

end ForHttp

/-- C6 counterexample: the claim says a message matching no taxonomy token
yields the generic Internal error.  The message `"404"` contains none of the
thirteen taxonomy tokens, yet `HttpAdapter.parseError` classifies it as
NotFound (the first four checks also match on status-code digits, which the
claim omits). -/
theorem C6_status_code_counterexample :
    ForHttp.parseErrorHttp "404" = ⟨ForHttp.ErrKind.notFound, "404"⟩ ∧
    ForHttp.taxonomyTokens.all (fun t => !(ForHttp.strContains "404" t)) = true := by
  refine ⟨rfl, by decide⟩

/-- C6 amended: `HttpAdapter.parseError` classifies a message by first match
against the taxonomy in the claim's fixed order (NotFound, Conflict,
BadRequest, Validation, QueryError, PagingError, Unsupported, Migration,
Observer, Authorization, Forbidden, Connection, Serialization), where each
kind is selected by its class-name token and the first four also by the
status-code digits 404 / 409 / 400 / 422; a message matching nothing yields
the generic Internal kind, and the original message is preserved in the
returned error. -/
theorem C6_first_match_classification (msg : String) :
    ForHttp.parseErrorHttp msg =
      ⟨ForHttp.firstMatch msg ForHttp.errorChecks, msg⟩ := by
  have h : ForHttp.parseErrorHttp msg = ForHttp.genParse msg ForHttp.errorChecks := rfl
  rw [h, ForHttp.genParse_eq]

namespace ForHttp

/-! ### Response parsing: `ResponseParser`, `NestJSResponseParser`,
`AxiosHttpAdapter.parseResponse` -/

/-- A JSON-like runtime value (response bodies, raw records, hydrated model
instances). -/
inductive JVal where
  | null
  | bool (b : Bool)
  | num (n : Int)
  | str (s : String)
  | arr (l : List JVal)
  | obj (l : List (String × JVal))

/-- What a raised failure of the parsing path is: a classified error built
through `HttpAdapter.parseError`, or the JS `TypeError` the source runs into
when it passes a bare status number (whose `.message` is `undefined`) to
`parseError`. -/
inductive ErrOut where
  | classified (e : ClassifiedError)
  | jsTypeError (m : String)
deriving DecidableEq

/-- What `AxiosHttpAdapter.parseResponse` returns when it does not throw: a
(possibly hydrated) body value, or — in the default switch branch — the raw
response object itself. -/
inductive ParseOut where
  | val (v : JVal)
  | raw (status : Option Nat) (error : Option String) (body : JVal)

/-- The raw response consumed by `AxiosHttpAdapter.parseResponse`: an
optional numeric status (`none` models JS `undefined`), an optional
transport error (represented by its message, the only part `parseError`
reads), and the body. -/
structure AxiosResponse where
  status : Option Nat
  error : Option String
  body : JVal

/-- Shallow embedding of the base `ResponseParser.parse` (source lines 5-9
of the ResponseParser file): the identity on the response, for every
operation-kind string and every response type, raising nothing. -/
def responseParserParse {ρ : Type} : String → ρ → Except ErrOut ρ :=
  fun _ response => .ok response

/-- Shallow embedding of `NestJSResponseParser.parse` (ResponseParser file
lines 16-46): any status outside the 2xx range raises the classified error
for the stringified status before the operation-kind switch runs; bulk CRUD
and findBy / listBy / pageBy return the envelope `raw`, singular CRUD
returns `data`, findOneBy / statement / anything else returns `raw`. -/
def nestParseResponse (method : String) (status : Nat) (raw data : JVal) :
    Except ClassifiedError JVal :=
  if ¬(200 ≤ status ∧ status < 300) then .error (parseErrorHttp (Nat.repr status))
  else if method = "createAll" ∨ method = "readAll" ∨ method = "updateAll" ∨
      method = "deleteAll" ∨ method = "findBy" ∨ method = "listBy" ∨ method = "pageBy" then
    .ok raw
  else if method = "create" ∨ method = "read" ∨ method = "update" ∨ method = "delete" then
    .ok data
  else .ok raw

/-- JS `Object.entries` restricted to the values `typeof v === "object" && v
!== null` accepts: an object gives its own entries in insertion order, an
array gives index-keyed entries, anything else (including `null`) is not an
object. -/
def entriesOf : JVal → Option (List (String × JVal))
  | .obj l => some l
  | .arr l => some (l.enum.map (fun p => (Nat.repr p.1, p.2)))
  | _ => none

/-- The per-key loop of the `GROUP_OF` branch of
`AxiosHttpAdapter.parseResponse`: an array value is hydrated element-wise
(`value.map(d => new clazz(d))`, with the constructor call modelled by the
`hydrate` parameter), any other value is assigned through unchanged. -/
def groupLoop (hydrate : JVal → JVal) : List (String × JVal) → List (String × JVal)
  | [] => []
  | (k, v) :: rest =>
      (k, match v with
          | .arr l => .arr (l.map hydrate)
          | other => other) :: groupLoop hydrate rest

/-- Shallow embedding of `AxiosHttpAdapter.parseResponse` (axios adapter
source lines 171-225).  `superParse` is the inherited
`HttpAdapter.parseResponse`, i.e. the configured response parser (the
constructor defaults it to `responseParserParse`); `hydrate` models `new
clazz(d)`.  A falsy status on a non-statement method raises InternalError;
a status of 400 or more raises `parseError(res.error || res.status)` —
the classified error for the transport error message when one is present,
and the JS `TypeError` from reading `.message` of a number otherwise. -/
def axiosParseResponse (superParse : String → JVal → Except ErrOut JVal)
    (hydrate : JVal → JVal) (method : String) (res : AxiosResponse) :
    Except ErrOut ParseOut :=
  if (match res.status with | none => true | some s => decide (s = 0)) &&
      (method != "statement") then
    .error (.classified ⟨.internal, "this should be impossible"⟩)
  else if (match res.status with | none => false | some s => decide (400 ≤ s)) then
    match res.error with
    | some e => .error (.classified (parseErrorHttp e))
    | none => .error (.jsTypeError "Cannot read properties of undefined")
  else if method = "createAll" ∨ method = "readAll" ∨ method = "updateAll" ∨
      method = "deleteAll" ∨ method = "create" ∨ method = "read" ∨
      method = "update" ∨ method = "delete" then
    .ok (.val res.body)
  else if method = "find" ∨ method = "page" ∨ method = "findBy" ∨ method = "listBy" ∨
      method = "pageBy" ∨ method = "findOneBy" ∨ method = "statement" then
    match superParse method res.body with
    | .ok v => .ok (.val v)
    | .error e => .error e
  else if method = "countOf" ∨ method = "maxOf" ∨ method = "minOf" ∨
      method = "avgOf" ∨ method = "sumOf" then
    .ok (.val res.body)
  else if method = "distinctOf" then
    .ok (.val res.body)
  else if method = "groupOf" then
    match entriesOf res.body with
    | some es => .ok (.val (.obj (groupLoop hydrate es)))
    | none => .ok (.val res.body)
  else
    .ok (.raw res.status res.error res.body)

/-- Whether a parse outcome is a raised error. -/
def raised : Except α β → Bool
  | .error _ => true
  | .ok _ => false

end ForHttp

namespace ForHttp

/-- The adapter configuration as far as response parsing is concerned: the
`HttpConfig` of src/types.ts with its optional `responseParser` entry,
generic in the raw response type. -/
structure HttpConfigM (ρ : Type) where
  protocol : String
  host : String
  responseParser : Option (String → ρ → Except ErrOut ρ)

/-- Shallow embedding of the `HttpAdapter` constructor's configuration step
(adapter source lines 115-123): `responseParser: config.responseParser ||
new ResponseParser()` — a missing parser is defaulted to the base
`ResponseParser`. -/
def httpAdapterInit {ρ : Type} (cfg : HttpConfigM ρ) : HttpConfigM ρ :=
  { cfg with responseParser := some (cfg.responseParser.getD responseParserParse) }

/-- Shallow embedding of `HttpAdapter.parseResponse` (adapter source lines
360-364): raise InternalError when no parser is configured, otherwise
delegate to `config.responseParser.parse`. -/
def httpAdapterParseResponse {ρ : Type} (cfg : HttpConfigM ρ) (method : String)
    (res : ρ) : Except ErrOut ρ :=
  match cfg.responseParser with
  | none => .error (.classified ⟨.internal, "No response parser configured"⟩)
  | some p => p method res

end ForHttp

/-- C5 counterexample: the claim says the parser raises for every status
outside the 2xx range.  `AxiosHttpAdapter.parseResponse` applied to a
response with status 301 (not 2xx) and operation kind `read` raises nothing
and returns the body: its status gate only fires for missing/zero status and
for status 400 and above. -/
theorem C5_redirect_passthrough_counterexample :
    ForHttp.axiosParseResponse ForHttp.responseParserParse (fun v => v) "read"
      ⟨some 301, none, ForHttp.JVal.str "moved"⟩ =
      .ok (.val (ForHttp.JVal.str "moved")) ∧
    ¬(200 ≤ 301 ∧ 301 < 300) := by
  exact ⟨rfl, by decide⟩

/-- C5 amended: `AxiosHttpAdapter.parseResponse` raises a classified error
for every status of 400 or more before any parsing of the body, and never
raises on account of a status in the range 200-399 (3xx responses pass
through to normal parsing); `NestJSResponseParser.parse` raises the error
classified from the stringified status for every status outside the 2xx
range before its operation-kind switch, and never raises for a 2xx
status.  (Stated for the default identity response parser installed by the
`HttpAdapter` constructor.) -/
theorem C5_status_gate (hydrate : ForHttp.JVal → ForHttp.JVal) (method : String)
    (st : Nat) (err : Option String) (body rawv datav : ForHttp.JVal) :
    (400 ≤ st →
      ForHttp.raised (ForHttp.axiosParseResponse ForHttp.responseParserParse hydrate method
        ⟨some st, err, body⟩) = true) ∧
    (200 ≤ st → st < 400 →
      ForHttp.raised (ForHttp.axiosParseResponse ForHttp.responseParserParse hydrate method
        ⟨some st, err, body⟩) = false) ∧
    (¬(200 ≤ st ∧ st < 300) →
      ForHttp.nestParseResponse method st rawv datav =
        .error (ForHttp.parseErrorHttp (Nat.repr st))) ∧
    (200 ≤ st → st < 300 →
      ForHttp.raised (ForHttp.nestParseResponse method st rawv datav) = false) := by
  refine ⟨?_, ?_, ?_, ?_⟩
  · intro h
    have h0 : ¬(st = 0) := by omega
    rcases err with _ | e <;>
      simp [ForHttp.axiosParseResponse, h, h0, ForHttp.raised]
  · intro h1 h2
    have h0 : ¬(st = 0) := by omega
    have hge : ¬(400 ≤ st) := by omega
    simp only [ForHttp.axiosParseResponse, h0, hge, decide_eq_true_eq,
      decide_eq_false_iff_not, ForHttp.responseParserParse]
    simp only [h0, hge, decide_False, Bool.false_and, Bool.false_eq_true, if_false]
    split_ifs <;>
      first
        | rfl
        | (rcases hE : ForHttp.entriesOf body with _ | es <;> simp [hE, ForHttp.raised])
  · intro h
    simp [ForHttp.nestParseResponse, h]
  · intro h1 h2
    simp only [ForHttp.nestParseResponse, h1, h2]
    split_ifs <;> first | rfl | simp_all

/-- C5 witness: the amended status-gate facts at concrete inputs — a 404
with a transport error raises, a 204 does not, and the NestJS parser raises
for 404 and not for 204. -/
theorem C5_status_gate_witness :
    ForHttp.raised (ForHttp.axiosParseResponse ForHttp.responseParserParse (fun v => v) "read"
      ⟨some 404, some "boom", ForHttp.JVal.null⟩) = true ∧
    ForHttp.raised (ForHttp.axiosParseResponse ForHttp.responseParserParse (fun v => v) "read"
      ⟨some 204, none, ForHttp.JVal.null⟩) = false ∧
    ForHttp.nestParseResponse "read" 404 ForHttp.JVal.null ForHttp.JVal.null =
      .error (ForHttp.parseErrorHttp (Nat.repr 404)) ∧
    ForHttp.raised (ForHttp.nestParseResponse "read" 204 ForHttp.JVal.null ForHttp.JVal.null) = false := by
  refine ⟨?_, ?_, ?_, ?_⟩
  · exact (C5_status_gate (fun v => v) "read" 404 (some "boom") .null .null .null).1 (by decide)
  · exact (C5_status_gate (fun v => v) "read" 204 none .null .null .null).2.1 (by decide) (by decide)
  · exact (C5_status_gate (fun v => v) "read" 404 none .null .null .null).2.2.1 (by decide)
  · exact (C5_status_gate (fun v => v) "read" 204 none .null .null .null).2.2.2 (by decide) (by decide)

/-- C8: parsing a group-by response whose body is a map yields a map with
exactly the same keys in the same order, where every array value is replaced
by the array of hydrated instances of the same length and every non-array
value passes through unchanged. -/
theorem C8_group_hydration (hydrate : ForHttp.JVal → ForHttp.JVal)
    (entries : List (String × ForHttp.JVal)) :
    ForHttp.axiosParseResponse ForHttp.responseParserParse hydrate "groupOf"
      ⟨some 200, none, ForHttp.JVal.obj entries⟩ =
      .ok (.val (.obj (ForHttp.groupLoop hydrate entries))) ∧
    (ForHttp.groupLoop hydrate entries).map Prod.fst = entries.map Prod.fst ∧
    List.Forall₂ (fun (e r : String × ForHttp.JVal) =>
        e.1 = r.1 ∧
        (∀ l, e.2 = ForHttp.JVal.arr l →
          r.2 = ForHttp.JVal.arr (l.map hydrate) ∧ (l.map hydrate).length = l.length) ∧
        ((∀ l, e.2 ≠ ForHttp.JVal.arr l) → r.2 = e.2))
      entries (ForHttp.groupLoop hydrate entries) := by
  refine ⟨rfl, ?_, ?_⟩
  · induction entries with
    | nil => rfl
    | cons e t ih =>
        obtain ⟨k, v⟩ := e
        simpa [ForHttp.groupLoop] using ih
  · induction entries with
    | nil => exact List.Forall₂.nil
    | cons e t ih =>
        obtain ⟨k, v⟩ := e
        refine List.Forall₂.cons ⟨rfl, ?_, ?_⟩ ih
        · intro l hl
          subst hl
          exact ⟨rfl, List.length_map _ _⟩
        · intro hna
          cases v <;> first | rfl | exact absurd rfl (hna _)

/-- C10: the base `ResponseParser.parse` is the identity for every
operation-kind string, so an `HttpAdapter` whose configuration carries no
`responseParser` gets the default parser from its constructor and its
`parseResponse` returns every response unchanged — no status inspection, no
raised error, no hydration, for any operation kind. -/
theorem C10_default_parser_identity {ρ : Type} (cfg : ForHttp.HttpConfigM ρ)
    (h : cfg.responseParser = none) (method : String) (res : ρ) :
    ForHttp.httpAdapterParseResponse (ForHttp.httpAdapterInit cfg) method res = .ok res := by
  simp [ForHttp.httpAdapterParseResponse, ForHttp.httpAdapterInit, h,
    ForHttp.responseParserParse]

/-- C10 witness: a concrete parserless configuration over `Nat` responses
parses the response `7` of a `read` to itself. -/
theorem C10_default_parser_identity_witness :
    ForHttp.httpAdapterParseResponse
      (ForHttp.httpAdapterInit
        ⟨"https", "example.com", (none : Option (String → Nat → Except ForHttp.ErrOut Nat))⟩)
      "read" 7 = .ok 7 :=
  C10_default_parser_identity _ rfl "read" 7

namespace ForHttp

/-! ### The Paginator: `HttpPaginator.page` and `HttpPaginator.prepare`
(src/src/HttpPaginator.ts) -/

/-- ASCII lower-casing of a character list (for the case-insensitive `i`
flag of the split regexes in `HttpPaginator.prepare`). -/
def lowerL (l : List Char) : List Char := l.map lowerChar

/-- Tries the regex alternatives in order at the current position
(JS alternation is first-alternative-wins); on a match returns the matched
slice of the input (the captured separator keeps the input's casing) and the
rest of the input. -/
def findAlt (alts : List (List Char)) (l : List Char) : Option (List Char × List Char) :=
  match alts with
  | [] => none
  | a :: rest =>
      if a ≠ [] ∧ (lowerL a).isPrefixOf (lowerL l) then
        some (l.take a.length, l.drop a.length)
      else findAlt rest l

/-- JS `String.prototype.split` on a case-insensitive alternation regex with
a capture group: the pieces between matches interleaved with the matched
separators (leading/trailing empty pieces included).  `fuel` bounds the scan
and is instantiated with the input length plus one. -/
def splitKeepAux (alts : List (List Char)) (fuel : Nat) (l acc : List Char) :
    List (List Char) :=
  match fuel with
  | 0 => [acc.reverse]
  | fuel + 1 =>
      match l with
      | [] => [acc.reverse]
      | c :: rest =>
          match findAlt alts l with
          | some (sep, remaining) => acc.reverse :: sep :: splitKeepAux alts fuel remaining []
          | none => splitKeepAux alts fuel rest (c :: acc)

/-- The first split of `HttpPaginator.prepare`: the token split on the
captured, case-insensitive alternation of the six query clauses. -/
def splitKeepCI (alts : List String) (s : String) : List String :=
  (splitKeepAux (alts.map String.data) (s.data.length + 1) s.data []).map String.mk

/-- One alternative of the direction-split regex: its text plus whether it
carries a trailing `.*` (which greedily consumes the rest of the input). -/
def findAltGreedy (alts : List (List Char × Bool)) (l : List Char) : Option (List Char) :=
  match alts with
  | [] => none
  | (a, greedy) :: rest =>
      if a ≠ [] ∧ (lowerL a).isPrefixOf (lowerL l) then
        some (if greedy then [] else l.drop a.length)
      else findAltGreedy rest l

/-- JS `split` on a case-insensitive alternation without a capture group
(separators dropped), supporting a greedy `.*` suffix on an alternative. -/
def splitDropAux (alts : List (List Char × Bool)) (fuel : Nat) (l acc : List Char) :
    List (List Char) :=
  match fuel with
  | 0 => [acc.reverse]
  | fuel + 1 =>
      match l with
      | [] => [acc.reverse]
      | c :: rest =>
          match findAltGreedy alts l with
          | some remaining => acc.reverse :: splitDropAux alts fuel remaining []
          | none => splitDropAux alts fuel rest (c :: acc)

/-- The second split of `HttpPaginator.prepare`, on
`Asc|Dsc|GroupBy.*|ThenBy` (case-insensitive). -/
def splitDropCI (alts : List (String × Bool)) (s : String) : List String :=
  (splitDropAux (alts.map (fun p => (p.1.data, p.2))) (s.data.length + 1) s.data []).map String.mk

/-- JS `String.prototype.trim`. -/
def trimStr (s : String) : String :=
  String.mk (((s.data.dropWhile Char.isWhitespace).reverse.dropWhile Char.isWhitespace).reverse)

/-- JS `s.split(sep)` for a plain (case-sensitive) string separator. -/
def splitOnStr (s sep : String) : List String :=
  (splitOnSubAux sep.data (s.data.length + 1) s.data []).map String.mk

/-- JS `String.prototype.replace` with a non-empty string pattern: replaces
the first occurrence only (the paginator's pattern `findBy` is never
empty). -/
def replaceFirstAux (pat rep : List Char) (fuel : Nat) (l : List Char) : List Char :=
  match fuel with
  | 0 => l
  | fuel + 1 =>
      match l with
      | [] => []
      | c :: rest =>
          if pat.isPrefixOf l then rep ++ l.drop pat.length
          else c :: replaceFirstAux pat rep fuel rest

/-- String-level first-occurrence replacement. -/
def replaceFirst (s pat rep : String) : String :=
  String.mk (replaceFirstAux pat.data rep.data s.data.length s.data)

/-- JS `String.prototype.startsWith`. -/
def strStarts (s p : String) : Bool :=
  p.data.isPrefixOf s.data

/-- The six clauses of the first split's alternation, in the source's join
order. -/
def clauseAlternatives : List String :=
  [queryClauseFindBy, queryClauseSelect, queryClauseOrderBy, queryClauseGroupBy,
   queryClauseAnd, queryClauseOr]

/-- The fragments filtered out of the attr pieces (the four clauses plus
`toPascalCase` of the two order directions; modelled from the spec:
`OrderDirection.ASC` / `OrderDirection.DSC` of `@decaf-ts/core` are `asc` /
`dsc`, as their rendering in the integration tests' URLs shows). -/
def attrFilterFragments : List String :=
  [queryClauseFindBy, queryClauseSelect, queryClauseOrderBy, queryClauseGroupBy,
   "Asc", "Dsc"]

/-- The direction-split alternation `Asc|Dsc|GroupBy.*|ThenBy`. -/
def dirAlternatives : List (String × Bool) :=
  [("Asc", false), ("Dsc", false), (queryClauseGroupBy, true), (queryClauseThenBy, false)]

/-- The attr pieces of `HttpPaginator.prepare`: the captured
case-insensitive clause split of the method token, trimmed, with empty
pieces and pieces containing a clause or direction fragment dropped. -/
def prepareAttrs (method : String) : List String :=
  (((splitKeepCI clauseAlternatives method).map trimStr).filter
      (fun s => ¬s.isEmpty)).filter
    (fun s => ¬attrFilterFragments.any (fun c => strContains s c))

/-- The order-by fields extracted from everything after the `OrderBy`
separator (the source's `orderBy` list before it is paired with the
direction). -/
def prepareOrderParts (tail : String) : List String :=
  ((splitDropCI dirAlternatives tail).map trimStr).filter (fun s => ¬s.isEmpty)

/-- Shallow embedding of `HttpPaginator.prepare` (src/src/HttpPaginator.ts
lines 47-103).  The order-by part is everything after the (case-sensitive)
`OrderBy` separator — when the token has no such separator the source
crashes with a JS `TypeError` (`fullOrderBy[1]` is `undefined`), modelled
as the error result; the direction is `asc` exactly when the part after
`OrderBy` contains `Asc`.  A single attr equal to the first order-by field
yields the collapsed `pageBy` statement with `[attr, direction, size]` as
its args; anything else replaces the first `findBy` of the token by
`pageBy` and appends `size` to the args.  Both branches keep the original
`params` (`Object.assign` copies them from the raw statement). -/
def prepareV (q : HttpQuery) (size : Int) : Except String HttpQuery :=
  match ((splitOnStr q.method queryClauseOrderBy).get? 1 : Option String) with
  | none => .error "TypeError: fullOrderBy[1] is undefined"
  | some tail =>
      if (prepareAttrs q.method).length = 1 ∧
          (prepareAttrs q.method).head? = (prepareOrderParts tail).head? then
        .ok { q with
          method := "pageBy",
          args := [Lit.str (toCamelCase ((prepareAttrs q.method).headD "")),
                   Lit.str (if strContains tail "Asc" then "asc" else "dsc"),
                   Lit.num size] }
      else
        .ok { q with
          method := replaceFirst q.method queryClauseFindBy "pageBy",
          args := q.args ++ [Lit.num size] }

/-- The value-level behaviour of `HttpPaginator.page` (src/src/HttpPaginator.ts
lines 22-45) up to the transport call: copy the source statement, derive the
paginated variant through `prepare` when the method token does not already
contain `pageBy`, then push the requested page number onto the (copied)
positional args.  The result is the query submitted to `adapter.raw`. -/
def pageSubmitted (q : HttpQuery) (size n : Int) : Except String HttpQuery :=
  match (if strContains q.method "pageBy" then .ok q else prepareV q size :
      Except String HttpQuery) with
  | .error e => .error e
  | .ok st => .ok { st with args := st.args ++ [Lit.num n] }

/-- The simple source statement of the repository's paging integration test:
`findBy name OrderBy name asc` compiled, with one positional argument. -/
def simpleStatement : HttpQuery :=
  ⟨"findByNameOrderByNameAsc", [Lit.str "test"], []⟩

end ForHttp

namespace ForHttp

/-- A list is a prefix of itself followed by anything. -/
theorem isPrefixOf_append_self (p t : List Char) : p.isPrefixOf (p ++ t) = true := by
  induction p with
  | nil => simp [List.isPrefixOf]
  | cons a as ih => simp [List.isPrefixOf, ih]

/-- Replacing the leading `findBy` of a token that starts with it yields a
token that starts with `pageBy`. -/
theorem strStarts_replaceFirst_findBy (s : String)
    (h : strStarts s "findBy" = true) :
    strStarts (replaceFirst s "findBy" "pageBy") "pageBy" = true := by
  unfold strStarts at h
  unfold strStarts replaceFirst
  cases hsd : s.data with
  | nil =>
      rw [hsd] at h
      exact absurd h (by decide)
  | cons c rest =>
      rw [hsd] at h
      show ("pageBy".data).isPrefixOf
        (replaceFirstAux "findBy".data "pageBy".data (c :: rest).length (c :: rest)) = true
      rw [List.length_cons]
      unfold replaceFirstAux
      show ("pageBy".data).isPrefixOf
        (if "findBy".data.isPrefixOf (c :: rest) = true then
          "pageBy".data ++ List.drop "findBy".data.length (c :: rest)
        else c :: replaceFirstAux "findBy".data "pageBy".data rest.length rest) = true
      rw [if_pos h]
      exact isPrefixOf_append_self _ _

end ForHttp

/-- C2 counterexample: the claim says `page(1)` on a non-paginated statement
submits a descriptor carrying `limit = pageSize` in `namedParams` and
`namedParams.offset = (n-1)*pageSize+1`.  Paging the compiled statement
`findByNameOrderByNameAsc` (args `["test"]`, empty params) with page size 10
submits `pageBy` with positional args `["name", "asc", 10, 1]` and an
unchanged, empty `namedParams`: the params map holds neither a `limit` nor
an `offset` entry — page size and page position travel as positional
arguments. -/
theorem C2_named_params_counterexample :
    ForHttp.pageSubmitted ForHttp.simpleStatement 10 1 =
      .ok ⟨"pageBy",
        [ForHttp.Lit.str "name", ForHttp.Lit.str "asc", ForHttp.Lit.num 10,
         ForHttp.Lit.num 1], []⟩ ∧
    ForHttp.strContains ForHttp.simpleStatement.method "pageBy" = false ∧
    ([] : List (String × ForHttp.Lit)).lookup "limit" = none ∧
    ([] : List (String × ForHttp.Lit)).lookup "offset" = none := by
  exact ⟨rfl, by decide, rfl, rfl⟩

/-- C2 amended: when `page(n)` is first invoked on a source statement whose
method token does not contain the paging verb, the derived descriptor's
method token is `pageBy`-based (for a token starting with `findBy`, that
verb becomes `pageBy`, in the single-attribute case the token collapses to
the bare `pageBy`), the page size is appended as a positional argument
(followed by the requested page number `n` as the final positional
argument), and `namedParams` is left unchanged — in particular no `limit`
and no `offset` entries are injected. -/
theorem C2_page_derivation (q p : ForHttp.HttpQuery) (size n : Int)
    (hnp : ForHttp.strContains q.method "pageBy" = false)
    (hfb : ForHttp.strStarts q.method "findBy" = true)
    (hok : ForHttp.prepareV q size = .ok p) :
    ForHttp.pageSubmitted q size n =
      .ok { p with args := p.args ++ [ForHttp.Lit.num n] } ∧
    p.params = q.params ∧
    (∃ pre, p.args = pre ++ [ForHttp.Lit.num size]) ∧
    ForHttp.strStarts p.method "pageBy" = true := by
  refine ⟨by simp [ForHttp.pageSubmitted, hnp, hok], ?_⟩
  unfold ForHttp.prepareV at hok
  split at hok
  · simp at hok
  · repeat' split at hok
    all_goals simp only [Except.ok.injEq] at hok
    all_goals subst hok
    all_goals
      refine ⟨rfl, ?_, ?_⟩ <;>
        first
          | exact ⟨[ForHttp.Lit.str _, ForHttp.Lit.str _], rfl⟩
          | exact ⟨q.args, rfl⟩
          | rfl
          | exact ForHttp.strStarts_replaceFirst_findBy _ hfb

/-- C2 witness: the amended derivation applied to the concrete statement
`findByNameOrderByNameAsc` with page size 10, page 1. -/
theorem C2_page_derivation_witness :
    ForHttp.pageSubmitted ForHttp.simpleStatement 10 1 =
      .ok ⟨"pageBy",
        [ForHttp.Lit.str "name", ForHttp.Lit.str "asc", ForHttp.Lit.num 10,
         ForHttp.Lit.num 1], []⟩ ∧
    ([] : List (String × ForHttp.Lit)) = ForHttp.simpleStatement.params ∧
    (∃ pre, [ForHttp.Lit.str "name", ForHttp.Lit.str "asc", ForHttp.Lit.num 10] =
      pre ++ [ForHttp.Lit.num 10]) ∧
    ForHttp.strStarts "pageBy" "pageBy" = true := by
  have h := C2_page_derivation ForHttp.simpleStatement
    ⟨"pageBy", [ForHttp.Lit.str "name", ForHttp.Lit.str "asc", ForHttp.Lit.num 10], []⟩
    10 1 rfl rfl rfl
  exact ⟨h.1, h.2.1.symm, h.2.2.1, h.2.2.2⟩

namespace ForHttp

/-! ### Aliasing model for the paginator's copy discipline (claim C9)

`HttpPaginator.page` mutates an args array in place (`statement.args.push(page)`),
so whether the original descriptor survives depends on which array cell that
push hits.  Arrays are modelled as cells in a heap (a list of argument
lists); `Object.assign({}, stmt, { args: [...stmt.args], params: {...} })`
allocates a fresh cell seeded with the original contents. -/

/-- Reads the array cell `r` of the heap (JS out-of-bounds reads give
`undefined`; the model returns the empty list, which no reachable ref
hits). -/
def readArr : List (List Lit) → Nat → List Lit
  | [], _ => []
  | a :: _, 0 => a
  | _ :: t, n + 1 => readArr t n

/-- Replaces the contents of cell `r` (the in-place `push`). -/
def writeArr : List (List Lit) → Nat → List Lit → List (List Lit)
  | [], _, _ => []
  | _ :: t, 0, v => v :: t
  | a :: t, n + 1, v => a :: writeArr t n v

/-- A query object as the paginator holds it: the immutable method string
and params map by value, the args array by reference. -/
structure QueryObj where
  method : String
  argsRef : Nat
  params : List (String × Lit)
deriving Repr, DecidableEq

/-- The value a query object denotes in a given heap. -/
def valueOfObj (h : List (List Lit)) (o : QueryObj) : HttpQuery :=
  ⟨o.method, readArr h o.argsRef, o.params⟩

/-- The paginator state claim C9 speaks about: the source statement object,
the page size, and the mutable current-page position. -/
structure PagState where
  statement : QueryObj
  size : Int
  currentPage : Int
deriving Repr, DecidableEq

/-- Shallow embedding of `HttpPaginator.page` (src/src/HttpPaginator.ts
lines 22-45) over the heap model: copy the source statement into a fresh
args cell, derive the paginated variant through `prepare` when the method
token lacks `pageBy` (its result objects carry fresh args arrays as well),
push the page number onto the derived statement's cell, and set
`_currentPage` (the external `validatePage` of the core `Paginator` is
modelled from the spec: step 5 of the paging contract updates `currentPage`
to `n`).  Returns the final heap, the statement submitted to
`adapter.raw`, and the updated paginator state. -/
def pageH (h : List (List Lit)) (pg : PagState) (n : Int) :
    Except String (List (List Lit) × QueryObj × PagState) :=
  match (if strContains pg.statement.method "pageBy" then
           .ok (h ++ [readArr h pg.statement.argsRef],
             (⟨pg.statement.method, h.length, pg.statement.params⟩ : QueryObj))
         else
           match prepareV
               ⟨pg.statement.method,
                readArr (h ++ [readArr h pg.statement.argsRef]) h.length,
                pg.statement.params⟩ pg.size with
           | .error e => .error e
           | .ok p =>
               .ok ((h ++ [readArr h pg.statement.argsRef]) ++ [p.args],
                 (⟨p.method, (h ++ [readArr h pg.statement.argsRef]).length,
                   p.params⟩ : QueryObj)) :
      Except String (List (List Lit) × QueryObj)) with
  | .error e => .error e
  | .ok (h2, st) =>
      .ok (writeArr h2 st.argsRef (readArr h2 st.argsRef ++ [Lit.num n]), st,
        { pg with currentPage := n })

/-- Appending a cell does not change the cells below the old length. -/
theorem readArr_append_lt (h : List (List Lit)) (v : List Lit) (r : Nat)
    (hr : r < h.length) : readArr (h ++ [v]) r = readArr h r := by
  induction h generalizing r with
  | nil => exact absurd hr (by simp)
  | cons a t ih =>
      cases r with
      | zero => rfl
      | succ r => exact ih r (by simpa using hr)

/-- Writing one cell leaves every other cell unchanged. -/
theorem readArr_write_ne (h : List (List Lit)) (i j : Nat) (v : List Lit)
    (hij : i ≠ j) : readArr (writeArr h i v) j = readArr h j := by
  induction h generalizing i j with
  | nil => rfl
  | cons a t ih =>
      cases i with
      | zero =>
          cases j with
          | zero => exact absurd rfl hij
          | succ j => rfl
      | succ i =>
          cases j with
          | zero => rfl
          | succ j => exact ih i j (fun he => hij (by omega))

end ForHttp

/-- C9: a `page(n)` call leaves the paginator's original source descriptor
unchanged — read back through the final heap, its method token, its args
list (contents and length) and its params map are those it had before the
call; the statement submitted to the transport is a newly derived object
whose args live in a cell different from the original's; and the only
paginator state the call modifies is the current-page position. -/
theorem C9_page_frame (h : List (List ForHttp.Lit)) (pg : ForHttp.PagState) (n : Int)
    (hwf : pg.statement.argsRef < h.length)
    (h2 : List (List ForHttp.Lit)) (st : ForHttp.QueryObj) (pg2 : ForHttp.PagState)
    (hok : ForHttp.pageH h pg n = .ok (h2, st, pg2)) :
    ForHttp.valueOfObj h2 pg.statement = ForHttp.valueOfObj h pg.statement ∧
    pg2.statement = pg.statement ∧ pg2.size = pg.size ∧ pg2.currentPage = n ∧
    st.argsRef ≠ pg.statement.argsRef := by
  unfold ForHttp.pageH at hok
  split at hok
  · exact Except.noConfusion hok
  · rename_i x h2p stp heq
    simp only [Except.ok.injEq, Prod.mk.injEq] at hok
    obtain ⟨hh2, hst, hpg2⟩ := hok
    subst hh2; subst hst; subst hpg2
    split at heq
    · -- the token already contains the paging verb: only the fresh copy is pushed to
      simp only [Except.ok.injEq, Prod.mk.injEq] at heq
      obtain ⟨hh, hs⟩ := heq
      subst hh; subst hs
      have hne : h.length ≠ pg.statement.argsRef := by omega
      refine ⟨?_, rfl, rfl, rfl, by simpa using hne⟩
      unfold ForHttp.valueOfObj
      rw [ForHttp.readArr_write_ne _ _ _ _ hne, ForHttp.readArr_append_lt _ _ _ hwf]
    · -- the prepare path: a second fresh cell carries the derived args
      split at heq
      · exact Except.noConfusion heq
      · simp only [Except.ok.injEq, Prod.mk.injEq] at heq
        obtain ⟨hh, hs⟩ := heq
        subst hh; subst hs
        have hlt : pg.statement.argsRef <
            (h ++ [ForHttp.readArr h pg.statement.argsRef]).length := by
          simp only [List.length_append, List.length_cons, List.length_nil]
          omega
        have hne : (h ++ [ForHttp.readArr h pg.statement.argsRef]).length ≠
            pg.statement.argsRef := by omega
        refine ⟨?_, rfl, rfl, rfl, by simpa using hne⟩
        unfold ForHttp.valueOfObj
        rw [ForHttp.readArr_write_ne _ _ _ _ hne,
          ForHttp.readArr_append_lt _ _ _ hlt,
          ForHttp.readArr_append_lt _ _ _ hwf]

/-- C9 witness: paging the one-statement heap holding
`findByNameOrderByNameAsc` (args cell 0) with size 10, page 1: the original
cell still reads `["test"]`, the submitted statement lives in cell 2, and
only the current page moved to 1. -/
theorem C9_page_frame_witness :
    ForHttp.valueOfObj
        [[ForHttp.Lit.str "test"], [ForHttp.Lit.str "test"],
         [ForHttp.Lit.str "name", ForHttp.Lit.str "asc", ForHttp.Lit.num 10,
          ForHttp.Lit.num 1]]
        ⟨"findByNameOrderByNameAsc", 0, []⟩ =
      ForHttp.valueOfObj [[ForHttp.Lit.str "test"]] ⟨"findByNameOrderByNameAsc", 0, []⟩ ∧
    (⟨⟨"findByNameOrderByNameAsc", 0, []⟩, 10, 1⟩ : ForHttp.PagState).statement =
      (⟨⟨"findByNameOrderByNameAsc", 0, []⟩, 10, 0⟩ : ForHttp.PagState).statement ∧
    (⟨⟨"findByNameOrderByNameAsc", 0, []⟩, 10, 1⟩ : ForHttp.PagState).size =
      (⟨⟨"findByNameOrderByNameAsc", 0, []⟩, 10, 0⟩ : ForHttp.PagState).size ∧
    (⟨⟨"findByNameOrderByNameAsc", 0, []⟩, 10, 1⟩ : ForHttp.PagState).currentPage = 1 ∧
    (⟨"pageBy", 2, []⟩ : ForHttp.QueryObj).argsRef ≠
      (⟨"findByNameOrderByNameAsc", 0, []⟩ : ForHttp.QueryObj).argsRef := by
  exact C9_page_frame [[ForHttp.Lit.str "test"]]
    ⟨⟨"findByNameOrderByNameAsc", 0, []⟩, 10, 0⟩ 1 (by decide) _ _ _ rfl
